import Mathlib

/-!
Verification of the WorldVox voxel rendering pipeline.

Shallow embedding of the Rust sources `src/voxel.rs`, `src/voxel_types.rs`,
`src/render/billboard.rs` and `src/render/culling.rs`.  Modelling choices:

* `f32` scalars are modelled as exact rationals (`ℚ`); every finite `f32`
  value is a rational, and none of the verified claims depends on rounding.
* `i32` and `usize` are modelled as `Int` and `Nat`; the quantities involved
  (chunk-local coordinates, LOD indices) are far from any overflow boundary.
* The Rust cast `f32 as i32` truncates toward zero; it is modelled by
  `truncToInt`.
* `HashSet`/`HashMap` position lookup tables are modelled as lists with
  decidable membership, which has the same membership semantics.
* Euclidean distances, computed in the code with `Vec3::length` (a square
  root, irrational in general), are passed to the embedded functions as
  explicit rational arguments standing for the computed value.
* Bevy ECS queries are modelled as lists of the queried component data;
  `Query::get_single` returns `some` exactly on a one-element list, and the
  panicking `Query::single` is modelled with `Except`.
-/

namespace WorldVox

/-- Model of a glam `Vec3` (three `f32` components) as exact rationals. -/
structure Vec3q where
  x : ℚ
  y : ℚ
  z : ℚ
deriving DecidableEq, Repr

/-- Model of a glam `Vec4` (homogeneous clip-space coordinates). -/
structure Vec4q where
  x : ℚ
  y : ℚ
  z : ℚ
  w : ℚ
deriving DecidableEq, Repr

/-- Model of a bevy `IVec3` (chunk grid coordinates, `i32` components). -/
structure IVec3 where
  x : ℤ
  y : ℤ
  z : ℤ
deriving DecidableEq, Repr

/-- Model of a bevy `Color` as exact RGBA components. -/
structure ColorQ where
  r : ℚ
  g : ℚ
  b : ℚ
  a : ℚ
deriving DecidableEq, Repr

/-- Rust `f32 as i32`: truncation toward zero. -/
def truncToInt (q : ℚ) : ℤ :=
  if q < 0 then q.ceil else q.floor

/-- Constant `CHUNK_SIZE` from `src/voxel.rs` line 24. -/
def CHUNK_SIZE : ℤ := 16

/-- Struct `LocalPos` from `src/voxel.rs` lines 27-46: an integer position
inside a chunk, used as the adjacency-lookup key. -/
structure LocalPos where
  x : ℤ
  y : ℤ
  z : ℤ
deriving DecidableEq, Repr

/-- Constructor `LocalPos::new`. -/
def LocalPos.new (x y z : ℤ) : LocalPos := ⟨x, y, z⟩

/-- Conversion `LocalPos::from_vec3`, which applies `as i32` (truncation
toward zero) to each component. -/
def LocalPos.fromVec3 (v : Vec3q) : LocalPos :=
  ⟨truncToInt v.x, truncToInt v.y, truncToInt v.z⟩

/-- Struct `Voxel` from `src/voxel_types.rs` lines 4-8. -/
structure Voxel where
  position : Vec3q
  color : ColorQ
deriving DecidableEq, Repr

/-- Model of the bevy `Aabb` produced by `Aabb::from_min_max`, represented
by its two corners (bevy stores the equivalent center/half-extents pair). -/
structure Aabb where
  min : Vec3q
  max : Vec3q
deriving DecidableEq, Repr

/-- Struct `VoxelChunk` from `src/voxel.rs` lines 48-55. -/
structure VoxelChunk where
  position : IVec3
  voxels : List Voxel
  bounds : Aabb
  visible : Bool
  lod_level : ℕ
deriving DecidableEq, Repr

/-- Constructor `VoxelChunk::new` (`src/voxel.rs` lines 57-75): bounds run
from `position * CHUNK_SIZE` to that corner plus `CHUNK_SIZE`, the chunk
starts visible with LOD level 0. -/
def VoxelChunk.new (position : IVec3) (voxels : List Voxel) : VoxelChunk :=
  let lo : Vec3q := ⟨((position.x * CHUNK_SIZE : ℤ) : ℚ),
                     ((position.y * CHUNK_SIZE : ℤ) : ℚ),
                     ((position.z * CHUNK_SIZE : ℤ) : ℚ)⟩
  let hi : Vec3q := ⟨lo.x + ((CHUNK_SIZE : ℤ) : ℚ),
                     lo.y + ((CHUNK_SIZE : ℤ) : ℚ),
                     lo.z + ((CHUNK_SIZE : ℤ) : ℚ)⟩
  { position := position
    voxels := voxels
    bounds := ⟨lo, hi⟩
    visible := true
    lod_level := 0 }

/-- The six axis-aligned adjacent positions checked in
`filter_occluded_voxels` (`src/voxel.rs` lines 100-107), in source order. -/
def adjacentPositions (pos : LocalPos) : List LocalPos :=
  [LocalPos.new (pos.x + 1) pos.y pos.z,
   LocalPos.new (pos.x - 1) pos.y pos.z,
   LocalPos.new pos.x (pos.y + 1) pos.z,
   LocalPos.new pos.x (pos.y - 1) pos.z,
   LocalPos.new pos.x pos.y (pos.z + 1),
   LocalPos.new pos.x pos.y (pos.z - 1)]

/-- The out-of-bounds test from `filter_occluded_voxels`
(`src/voxel.rs` lines 113-115): some component lies outside
`[0, CHUNK_SIZE)`. -/
def outsideChunkBounds (p : LocalPos) : Bool :=
  decide (p.x < 0) || decide (CHUNK_SIZE ≤ p.x) ||
  decide (p.y < 0) || decide (CHUNK_SIZE ≤ p.y) ||
  decide (p.z < 0) || decide (CHUNK_SIZE ≤ p.z)

/-- The set of truncated positions of the input voxels
(`position_set` in `src/voxel.rs` lines 90-93), modelled as a list used only
through membership. -/
def positionSetOf (voxels : List Voxel) : List LocalPos :=
  voxels.map fun v => LocalPos.fromVec3 v.position

/-- The `retain` predicate of `filter_occluded_voxels`
(`src/voxel.rs` lines 96-122): a voxel is kept when some adjacent position
is outside the chunk bounds or holds no voxel. -/
def keepVoxel (positionSet : List LocalPos) (voxel : Voxel) : Bool :=
  let pos := LocalPos.fromVec3 voxel.position
  (adjacentPositions pos).any fun adj =>
    outsideChunkBounds adj || !(decide (adj ∈ positionSet))

/-- Method `VoxelChunk::filter_occluded_voxels` (`src/voxel.rs` lines
86-124) restricted to the voxel list it rewrites.  The `HashMap` variant in
`src/render/culling.rs` lines 30-66 runs the identical membership test. -/
def filterOccludedVoxels (voxels : List Voxel) : List Voxel :=
  voxels.filter (keepVoxel (positionSetOf voxels))

/-- Method `VoxelChunk::filter_occluded_voxels` acting on the whole chunk:
`self.voxels.retain(..)` rewrites only the `voxels` field. -/
def VoxelChunk.filterOccludedVoxels (c : VoxelChunk) : VoxelChunk :=
  { c with voxels := WorldVox.filterOccludedVoxels c.voxels }

/-- Resource `LodSettings` from `src/voxel.rs` lines 127-130: ordered
`(distance_threshold, scale_factor)` pairs. -/
structure LodSettings where
  distances : List (ℚ × ℚ)
deriving DecidableEq, Repr

/-- Impl `Default for LodSettings` (`src/voxel.rs` lines 132-142). -/
def LodSettings.default : LodSettings :=
  ⟨[(0, 1), (50, 2), (100, 4)]⟩

/-- The threshold loop of `update_voxel_lod` (`src/voxel.rs` lines 245-250):
enumerate the pairs from index `i`, assign the index of the first threshold
with `distance <= threshold` and stop, keep `prev` if none matches. -/
def lodScan (distance : ℚ) : List (ℚ × ℚ) → ℕ → ℕ → ℕ
  | [], _, prev => prev
  | (threshold, _) :: rest, i, prev =>
      if distance ≤ threshold then i else lodScan distance rest (i + 1) prev

/-- The new LOD level a chunk at distance `distance` receives from
`update_voxel_lod` when its current level is `prev`. -/
def selectLod (distance : ℚ) (settings : LodSettings) (prev : ℕ) : ℕ :=
  lodScan distance settings.distances 0 prev

/-- Column-major 4x4 matrix as in glam `Mat4`. -/
structure Mat4q where
  xAxis : Vec4q
  yAxis : Vec4q
  zAxis : Vec4q
  wAxis : Vec4q
deriving DecidableEq, Repr

/-- Camera data consumed by `update_chunk_visibility` (`src/voxel.rs` lines
204-231): the world translation of the camera and the matrix
`camera.projection_matrix() * camera_transform.compute_matrix()`. -/
structure CameraData where
  translation : Vec3q
  viewProjection : Mat4q
deriving Repr

/-- Bevy `Query::get_single`: `Ok` exactly when the query matches one
entity. -/
def getSingle : List α → Option α
  | [a] => some a
  | _ => none

/-- Conservative chunk bounding radius from `src/voxel.rs` line 214:
`(CHUNK_SIZE as f32) * 0.866`. -/
def chunkRadius : ℚ := ((CHUNK_SIZE : ℤ) : ℚ) * (866 / 1000)

/-- Matrix-vector product `m * v` for a column-major `Mat4`. -/
def mat4MulVec4 (m : Mat4q) (v : Vec4q) : Vec4q :=
  ⟨m.xAxis.x * v.x + m.yAxis.x * v.y + m.zAxis.x * v.z + m.wAxis.x * v.w,
   m.xAxis.y * v.x + m.yAxis.y * v.y + m.zAxis.y * v.z + m.wAxis.y * v.w,
   m.xAxis.z * v.x + m.yAxis.z * v.y + m.zAxis.z * v.z + m.wAxis.z * v.w,
   m.xAxis.w * v.x + m.yAxis.w * v.y + m.zAxis.w * v.z + m.wAxis.w * v.w⟩

/-- Homogeneous extension `Vec3::extend(1.0)`. -/
def vec4ext (v : Vec3q) : Vec4q := ⟨v.x, v.y, v.z, 1⟩

/-- Per-chunk body of `update_chunk_visibility` (`src/voxel.rs` lines
212-228).  `distance` stands for the `f32` value
`(chunk_center - camera_position).length()`; the square root is irrational
in general and is therefore an input of the embedding. -/
def classifyChunkVisible (distance renderDistance : ℚ) (vp : Mat4q)
    (chunkCenter : Vec3q) : Bool :=
  if renderDistance < distance then false
  else
    let v := mat4MulVec4 vp (vec4ext chunkCenter)
    decide (0 < v.w) &&
    decide (|v.x| ≤ v.w + chunkRadius) &&
    decide (|v.y| ≤ v.w + chunkRadius) &&
    decide (-chunkRadius ≤ v.z)

/-- System `update_chunk_visibility` (`src/voxel.rs` lines 204-231) over the
chunk query, each chunk paired with its `GlobalTransform` translation.
`dist` stands for the Euclidean length of the difference of its arguments.
With zero or several cameras `get_single` fails and the loop body never
runs. -/
def updateChunkVisibilitySys (dist : Vec3q → Vec3q → ℚ)
    (cameras : List CameraData) (renderDistance : ℚ)
    (chunks : List (VoxelChunk × Vec3q)) : List (VoxelChunk × Vec3q) :=
  match getSingle cameras with
  | none => chunks
  | some cam =>
      chunks.map fun e =>
        ({ e.1 with visible := classifyChunkVisible (dist e.2 cam.translation)
                      renderDistance cam.viewProjection e.2 }, e.2)

/-- System `update_voxel_lod` (`src/voxel.rs` lines 233-253) over the chunk
query; `cameras` lists the translations of the camera transforms. -/
def updateVoxelLodSys (dist : Vec3q → Vec3q → ℚ) (cameras : List Vec3q)
    (settings : LodSettings) (chunks : List (VoxelChunk × Vec3q)) :
    List (VoxelChunk × Vec3q) :=
  match getSingle cameras with
  | none => chunks
  | some camPos =>
      chunks.map fun e =>
        ({ e.1 with lod_level := selectLod (dist e.2 camPos) settings e.1.lod_level },
         e.2)

/-- World position of a billboard as computed inline in `update_billboards`
(`src/render/billboard.rs` lines 137-141):
`chunk.position * voxel_size + voxel.position * voxel_size` per axis. -/
def billboardWorldPos (chunkPos : IVec3) (voxel : Voxel) (voxelSize : ℚ) :
    Vec3q :=
  ⟨((chunkPos.x : ℤ) : ℚ) * voxelSize + voxel.position.x * voxelSize,
   ((chunkPos.y : ℤ) : ℚ) * voxelSize + voxel.position.y * voxelSize,
   ((chunkPos.z : ℤ) : ℚ) * voxelSize + voxel.position.z * voxelSize⟩

/-- Method `VoxelChunk::get_voxel_world_position` (`src/voxel.rs` lines
77-83): `(chunk.position * CHUNK_SIZE + voxel.position) * voxel_size` per
axis. -/
def getVoxelWorldPosition (c : VoxelChunk) (voxel : Voxel) (voxelSize : ℚ) :
    Vec3q :=
  ⟨(((c.position.x * CHUNK_SIZE : ℤ) : ℚ) + voxel.position.x) * voxelSize,
   (((c.position.y * CHUNK_SIZE : ℤ) : ℚ) + voxel.position.y) * voxelSize,
   (((c.position.z * CHUNK_SIZE : ℤ) : ℚ) + voxel.position.z) * voxelSize⟩

/-- The vector `camera_transform.translation - world_pos` built at
`src/render/billboard.rs` line 143 before it is normalized. -/
def toCameraVec (cameraPos worldPos : Vec3q) : Vec3q :=
  ⟨cameraPos.x - worldPos.x, cameraPos.y - worldPos.y, cameraPos.z - worldPos.z⟩

/-- One synthesized billboard.  The rotation quaternion is built from
`normalize` and `cross` over `f32` (`src/render/billboard.rs` lines
143-147); those involve square roots and are not part of any verified
claim, so only the emitted world position and colour are recorded. -/
structure BillboardOut where
  worldPos : Vec3q
  color : ColorQ
deriving DecidableEq, Repr

/-- System `update_billboards` (`src/render/billboard.rs` lines 107-174).
All previous billboards are despawned unconditionally; the returned list is
the replacement set.  In debug mode nothing is spawned.  The call
`camera.single()` panics unless exactly one camera exists, modelled as
`Except.error ()`.  When the circle texture is absent nothing is spawned.
Every voxel of every visible chunk emits exactly one billboard; no voxel is
skipped for coinciding with the camera. -/
def updateBillboards (debugMode : Bool) (voxelSize : ℚ)
    (cameras : List Vec3q) (circleTexture : Option Unit)
    (chunks : List VoxelChunk) : Except Unit (List BillboardOut) :=
  if debugMode then Except.ok []
  else
    match cameras with
    | [_cam] =>
        match circleTexture with
        | some _ =>
            Except.ok <|
              (chunks.filter fun c => c.visible).flatMap fun c =>
                c.voxels.map fun v =>
                  ⟨billboardWorldPos c.position v voxelSize, v.color⟩
        | none => Except.ok []
    | _ => Except.error ()

/-- A solid cube of `N * N * N` voxels at the integer positions `[0, N)` on
each axis, generalising the `15 * 15 * 15` loop of `setup_voxel_scene`
(`src/voxel.rs` lines 161-192); `col` abstracts the HSL gradient, which
occlusion filtering never reads. -/
def cubeVoxels (col : ℕ → ℕ → ℕ → ColorQ) (N : ℕ) : List Voxel :=
  (List.range N).flatMap fun (x : ℕ) =>
    (List.range N).flatMap fun (y : ℕ) =>
      (List.range N).map fun (z : ℕ) =>
        { position := ⟨(x : ℚ), (y : ℚ), (z : ℚ)⟩, color := col x y z }



/-- The six neighbour positions named by the specification: the truncated
voxel position offset by plus or minus one on a single axis. -/
def specNeighbors (p : LocalPos) : List LocalPos :=
  [⟨p.x + 1, p.y, p.z⟩, ⟨p.x - 1, p.y, p.z⟩,
   ⟨p.x, p.y + 1, p.z⟩, ⟨p.x, p.y - 1, p.z⟩,
   ⟨p.x, p.y, p.z + 1⟩, ⟨p.x, p.y, p.z - 1⟩]

/-- Position outside the chunk bounds, as the specification words it:
not inside `[0, CHUNK_SIZE)` on every axis. -/
def specOutside (p : LocalPos) : Prop :=
  ¬ (0 ≤ p.x ∧ p.x < CHUNK_SIZE ∧ 0 ≤ p.y ∧ p.y < CHUNK_SIZE ∧
     0 ≤ p.z ∧ p.z < CHUNK_SIZE)

/-- Keep condition as the specification words it: at least one of the six
axis-aligned neighbour positions is outside the chunk bounds or absent from
the set of truncated positions of all input voxels. -/
def specKept (voxels : List Voxel) (v : Voxel) : Prop :=
  ∃ n ∈ specNeighbors (LocalPos.fromVec3 v.position),
    specOutside n ∨ ¬ ∃ w ∈ voxels, LocalPos.fromVec3 w.position = n

/-- An opaque-free stand-in colour for concrete test scenes. -/
def cstColor : ColorQ := ⟨0, 0, 0, 1⟩

/-- A single voxel at the local origin. -/
def originVoxel : Voxel := ⟨⟨0, 0, 0⟩, cstColor⟩

/-- A freshly built chunk at grid origin holding `originVoxel`. -/
def chunkOrigin : VoxelChunk := VoxelChunk.new ⟨0, 0, 0⟩ [originVoxel]

/-- A freshly built chunk at grid position `(1, 0, 0)`. -/
def chunkAtOneX : VoxelChunk := VoxelChunk.new ⟨1, 0, 0⟩ [originVoxel]

/-- A freshly built chunk with no voxels. -/
def emptyTestChunk : VoxelChunk := VoxelChunk.new ⟨0, 0, 0⟩ []

/-- The identity view-projection matrix, for concrete witnesses. -/
def mat4Identity : Mat4q :=
  ⟨⟨1, 0, 0, 0⟩, ⟨0, 1, 0, 0⟩, ⟨0, 0, 1, 0⟩, ⟨0, 0, 0, 1⟩⟩

/-- Interior test on one cube coordinate: `1 ≤ k ≤ N - 2`. -/
def inn (N k : ℕ) : Bool := decide (1 ≤ k) && decide (k ≤ N - 2)


/-! ## Helper lemmas about the occlusion filter -/

theorem mem_positionSetOf {voxels : List Voxel} {p : LocalPos} :
    p ∈ positionSetOf voxels ↔ ∃ w ∈ voxels, LocalPos.fromVec3 w.position = p := by
  simp [positionSetOf]

theorem outsideChunkBounds_iff (p : LocalPos) :
    outsideChunkBounds p = true ↔ specOutside p := by
  simp only [outsideChunkBounds, specOutside, Bool.or_eq_true, decide_eq_true_iff]
  omega

theorem keepVoxel_iff (S : List LocalPos) (v : Voxel) :
    keepVoxel S v = true ↔
      ∃ n ∈ adjacentPositions (LocalPos.fromVec3 v.position),
        outsideChunkBounds n = true ∨ n ∉ S := by
  simp [keepVoxel, List.any_eq_true]

theorem keepVoxel_mono {S T : List LocalPos} (hsub : ∀ p ∈ T, p ∈ S)
    (v : Voxel) (h : keepVoxel S v = true) : keepVoxel T v = true := by
  rw [keepVoxel_iff] at h ⊢
  obtain ⟨n, hn, hcase⟩ := h
  exact ⟨n, hn, hcase.imp id fun hnS hnT => hnS (hsub n hnT)⟩

theorem positionSetOf_filter_subset (q : Voxel → Bool) (voxels : List Voxel) :
    ∀ p ∈ positionSetOf (voxels.filter q), p ∈ positionSetOf voxels := by
  intro p hp
  rw [mem_positionSetOf] at hp ⊢
  obtain ⟨w, hw, rfl⟩ := hp
  exact ⟨w, (List.mem_filter.mp hw).1, rfl⟩

/-! ## C1 -/

/-- C1: `filter_occluded_voxels` keeps a voxel exactly when at least one of
the six axis-aligned neighbours of its truncated position is outside the
bounds `[0, CHUNK_SIZE)` on some axis or absent from the set of truncated
positions of all input voxels; a voxel with all six neighbours present and
in bounds is removed. -/
theorem filter_occluded_keeps_iff (voxels : List Voxel) (v : Voxel) :
    v ∈ filterOccludedVoxels voxels ↔ v ∈ voxels ∧ specKept voxels v := by
  rw [filterOccludedVoxels, List.mem_filter, keepVoxel_iff]
  refine and_congr_right fun _ => ?_
  unfold specKept
  have hsn : specNeighbors (LocalPos.fromVec3 v.position) =
      adjacentPositions (LocalPos.fromVec3 v.position) := rfl
  rw [hsn]
  refine exists_congr fun n => and_congr_right fun _ => ?_
  exact or_congr (outsideChunkBounds_iff n) (not_congr mem_positionSetOf)

/-! ## C6 -/

/-- C6: occlusion filtering is idempotent; filtering an already filtered
voxel list returns it unchanged. -/
theorem filter_occluded_idempotent (voxels : List Voxel) :
    filterOccludedVoxels (filterOccludedVoxels voxels) = filterOccludedVoxels voxels := by
  apply List.filter_eq_self.mpr
  intro a ha
  apply keepVoxel_mono
    (positionSetOf_filter_subset (keepVoxel (positionSetOf voxels)) voxels)
  exact List.of_mem_filter ha

/-! ## C10 -/

/-- C10: `filter_occluded_voxels` rewrites only the `voxels` field; the
surviving voxels form a subsequence of the input, and an empty voxel list
stays empty. -/
theorem filter_occluded_frame (c : VoxelChunk) :
    (c.filterOccludedVoxels).position = c.position ∧
    (c.filterOccludedVoxels).bounds = c.bounds ∧
    (c.filterOccludedVoxels).visible = c.visible ∧
    (c.filterOccludedVoxels).lod_level = c.lod_level ∧
    (c.filterOccludedVoxels).voxels.Sublist c.voxels ∧
    (c.voxels = [] → (c.filterOccludedVoxels).voxels = []) := by
  refine ⟨rfl, rfl, rfl, rfl, List.filter_sublist _, fun h => ?_⟩
  simp [VoxelChunk.filterOccludedVoxels, filterOccludedVoxels, h]

/-- Witness for C10 at a concrete empty chunk. -/
theorem filter_occluded_frame_witness :
    (emptyTestChunk.filterOccludedVoxels).voxels = [] :=
  (filter_occluded_frame emptyTestChunk).2.2.2.2.2 rfl


/-! ## C3 and C5: LOD selection -/

theorem lodScan_eq_findIdx (d : ℚ) (l : List (ℚ × ℚ)) (i prev : ℕ) :
    lodScan d l i prev =
      ((l.map Prod.fst).findIdx? (fun t => decide (d ≤ t)) i).getD prev := by
  induction l generalizing i with
  | nil => rfl
  | cons a l ih =>
    obtain ⟨t, s⟩ := a
    simp only [lodScan, List.map_cons, List.findIdx?_cons]
    by_cases h : d ≤ t
    · simp [h]
    · simp [h, ih]

/-- C3: for every distance and ordered threshold sequence, the LOD selector
returns the index of the first threshold at least the distance, scanning in
order, and keeps the previous level when no threshold matches. -/
theorem select_lod_first_match (d : ℚ) (settings : LodSettings) (prev : ℕ)
    (hsorted : (settings.distances.map Prod.fst).Sorted (· ≤ ·)) :
    selectLod d settings prev =
      ((settings.distances.map Prod.fst).findIdx? (fun t => decide (d ≤ t))).getD prev :=
  lodScan_eq_findIdx d settings.distances 0 prev

/-- Witness for C3 at distance 75 with the default thresholds and previous
level 7. -/
theorem select_lod_first_match_witness :
    selectLod 75 LodSettings.default 7 = 2 :=
  (select_lod_first_match 75 LodSettings.default 7 (by decide)).trans (by decide)

/-- C5 (counterexample): with the default configuration and previous level
0, distance 10 selects level 1 — not level 0 as claimed, because the first
threshold at least 10 is 50, at index 1. -/
theorem lod_default_distance10_not_zero :
    selectLod 10 LodSettings.default 0 = 1 ∧ selectLod 10 LodSettings.default 0 ≠ 0 := by
  constructor <;> decide

/-- C5 (amended): with the default LOD configuration, distance 10 yields
level 1, distance 75 yields level 2, and distance 500 leaves the previous
level unchanged. -/
theorem lod_default_levels (prev : ℕ) :
    selectLod 10 LodSettings.default prev = 1 ∧
    selectLod 75 LodSettings.default prev = 2 ∧
    selectLod 500 LodSettings.default prev = prev := by
  refine ⟨?_, ?_, ?_⟩ <;> norm_num [selectLod, LodSettings.default, lodScan]

/-! ## C2: visibility classification -/

/-- C2: the classifier returns `false` whenever the distance exceeds the
render distance, regardless of the frustum test; otherwise it returns
`true` exactly when the clip-space coordinates of the chunk center satisfy
`w > 0`, `|x| <= w + radius`, `|y| <= w + radius` and `z >= -radius`; in
particular `w <= 0` forces `false`. -/
theorem classify_visibility (distance renderDistance : ℚ) (vp : Mat4q)
    (center : Vec3q) :
    (renderDistance < distance →
        classifyChunkVisible distance renderDistance vp center = false) ∧
    (distance ≤ renderDistance →
      (classifyChunkVisible distance renderDistance vp center = true ↔
        (0 < (mat4MulVec4 vp (vec4ext center)).w ∧
         |(mat4MulVec4 vp (vec4ext center)).x| ≤
            (mat4MulVec4 vp (vec4ext center)).w + chunkRadius ∧
         |(mat4MulVec4 vp (vec4ext center)).y| ≤
            (mat4MulVec4 vp (vec4ext center)).w + chunkRadius ∧
         -chunkRadius ≤ (mat4MulVec4 vp (vec4ext center)).z))) ∧
    ((mat4MulVec4 vp (vec4ext center)).w ≤ 0 →
        classifyChunkVisible distance renderDistance vp center = false) := by
  refine ⟨fun h => ?_, fun h => ?_, fun hw => ?_⟩
  · simp only [classifyChunkVisible, if_pos h]
  · simp only [classifyChunkVisible, if_neg (not_lt.mpr h)]
    simp [decide_eq_true_iff, and_assoc]
  · simp only [classifyChunkVisible]
    rcases lt_or_le renderDistance distance with hc | hc
    · simp [hc]
    · simp only [if_neg (not_lt.mpr hc)]
      have hdec : decide (0 < (mat4MulVec4 vp (vec4ext center)).w) = false :=
        decide_eq_false (not_lt.mpr hw)
      simp [hdec]

/-- Witness for C2: a chunk at the origin seen through the identity matrix
within render distance is classified visible. -/
theorem classify_visibility_witness :
    classifyChunkVisible 0 1 mat4Identity ⟨0, 0, 0⟩ = true :=
  ((classify_visibility 0 1 mat4Identity ⟨0, 0, 0⟩).2.1 (by norm_num)).mpr
    (by norm_num [mat4MulVec4, vec4ext, mat4Identity, chunkRadius, CHUNK_SIZE])

/-! ## C4: billboard world position -/

/-- C4 (divergence): `update_billboards` computes the billboard world
position without the `CHUNK_SIZE` factor, so for a chunk at grid position
`(1, 0, 0)` and a voxel at the local origin with `voxel_size = 1` it places
the billboard at `x = 1`, while the chunk origin named by the claim — and
computed by `get_voxel_world_position` — is `x = 16`. -/
theorem billboard_world_pos_divergence :
    billboardWorldPos ⟨1, 0, 0⟩ originVoxel 1 = ⟨1, 0, 0⟩ ∧
    getVoxelWorldPosition chunkAtOneX originVoxel 1 = ⟨16, 0, 0⟩ ∧
    billboardWorldPos chunkAtOneX.position originVoxel 1 ≠
      getVoxelWorldPosition chunkAtOneX originVoxel 1 := by
  refine ⟨?_, ?_, ?_⟩ <;>
    norm_num [billboardWorldPos, getVoxelWorldPosition, chunkAtOneX,
      originVoxel, VoxelChunk.new, CHUNK_SIZE, Vec3q.mk.injEq]

/-! ## C8: voxel coinciding with the camera -/

/-- C8 (divergence): for a voxel whose world position coincides with the
camera — the `to_camera` vector before normalization is exactly zero — the
billboard synthesizer still emits a billboard for it; no skip guard
exists. -/
theorem billboard_emitted_at_camera :
    toCameraVec ⟨0, 0, 0⟩ (billboardWorldPos chunkOrigin.position originVoxel 1) =
      ⟨0, 0, 0⟩ ∧
    updateBillboards false 1 [⟨0, 0, 0⟩] (some ()) [chunkOrigin] =
      Except.ok [⟨billboardWorldPos chunkOrigin.position originVoxel 1, cstColor⟩] := by
  constructor
  · norm_num [toCameraVec, billboardWorldPos, chunkOrigin, originVoxel,
      VoxelChunk.new, Vec3q.mk.injEq]
  · rfl

/-! ## C9: missing or duplicated camera -/

/-- C9 (divergence): with zero cameras, and likewise with two, the
visibility and LOD systems leave every chunk unchanged, but
`update_billboards` reaches the panicking `Query::single` call instead of
no-opping. -/
theorem camera_missing_behaviour (dist : Vec3q → Vec3q → ℚ)
    (renderDistance voxelSize : ℚ) (settings : LodSettings)
    (chunks : List (VoxelChunk × Vec3q)) (tex : Option Unit)
    (bchunks : List VoxelChunk) (cam1 cam2 : CameraData) (p1 p2 : Vec3q) :
    updateChunkVisibilitySys dist [] renderDistance chunks = chunks ∧
    updateVoxelLodSys dist [] settings chunks = chunks ∧
    updateBillboards false voxelSize [] tex bchunks = Except.error () ∧
    updateChunkVisibilitySys dist [cam1, cam2] renderDistance chunks = chunks ∧
    updateVoxelLodSys dist [p1, p2] settings chunks = chunks ∧
    updateBillboards false voxelSize [p1, p2] tex bchunks = Except.error () :=
  ⟨rfl, rfl, rfl, rfl, rfl, rfl⟩


/-! ## C7: solid cube surface shell -/

theorem rat_floor_eq_intFloor (q : ℚ) : q.floor = ⌊q⌋ := by
  rw [Rat.floor_def', Rat.floor_def]

theorem truncToInt_natCast (n : ℕ) : truncToInt ((n : ℕ) : ℚ) = n := by
  unfold truncToInt
  rw [if_neg (not_lt.mpr (Nat.cast_nonneg n)), rat_floor_eq_intFloor]
  exact Int.floor_natCast n

theorem fromVec3_natCast (x y z : ℕ) :
    LocalPos.fromVec3 ⟨(x : ℚ), (y : ℚ), (z : ℚ)⟩ =
      ⟨(x : ℤ), (y : ℤ), (z : ℤ)⟩ := by
  unfold LocalPos.fromVec3
  show (⟨truncToInt (x : ℚ), truncToInt (y : ℚ), truncToInt (z : ℚ)⟩ : LocalPos) = _
  rw [truncToInt_natCast, truncToInt_natCast, truncToInt_natCast]

theorem mem_positionSet_cube {col : ℕ → ℕ → ℕ → ColorQ} {N : ℕ}
    {px py pz : ℤ} :
    (⟨px, py, pz⟩ : LocalPos) ∈ positionSetOf (cubeVoxels col N) ↔
      0 ≤ px ∧ px < (N : ℤ) ∧ 0 ≤ py ∧ py < (N : ℤ) ∧
      0 ≤ pz ∧ pz < (N : ℤ) := by
  simp only [positionSetOf, cubeVoxels, List.mem_map, List.mem_flatMap,
    List.mem_range]
  constructor
  · rintro ⟨v, ⟨x, hx, y, hy, z, hz, rfl⟩, hveq⟩
    rw [fromVec3_natCast] at hveq
    obtain ⟨e1, e2, e3⟩ := LocalPos.mk.injEq .. ▸ hveq
    omega
  · rintro ⟨h1, h2, h3, h4, h5, h6⟩
    refine ⟨{ position := ⟨(px.toNat : ℚ), (py.toNat : ℚ), (pz.toNat : ℚ)⟩,
              color := col px.toNat py.toNat pz.toNat },
            ⟨px.toNat, by omega, py.toNat, by omega, pz.toNat, by omega, rfl⟩, ?_⟩
    rw [fromVec3_natCast]
    have e1 : ((px.toNat : ℕ) : ℤ) = px := by omega
    have e2 : ((py.toNat : ℕ) : ℤ) = py := by omega
    have e3 : ((pz.toNat : ℕ) : ℤ) = pz := by omega
    rw [e1, e2, e3]

theorem keep_cube_iff (col : ℕ → ℕ → ℕ → ColorQ) {N x y z : ℕ} (hN3 : 3 ≤ N)
    (hN16 : N ≤ 16) (hx : x < N) (hy : y < N) (hz : z < N) :
    keepVoxel (positionSetOf (cubeVoxels col N))
        { position := ⟨(x : ℚ), (y : ℚ), (z : ℚ)⟩, color := col x y z } = true ↔
      (!(inn N x && inn N y && inn N z)) = true := by
  rw [keepVoxel_iff]
  simp only [fromVec3_natCast, adjacentPositions, LocalPos.new, List.mem_cons,
    List.not_mem_nil, or_false, exists_eq_or_imp, exists_eq_left,
    mem_positionSet_cube, outsideChunkBounds, CHUNK_SIZE, Bool.or_eq_true,
    decide_eq_true_iff, inn, Bool.not_eq_true', Bool.and_eq_false_iff,
    decide_eq_false_iff_not, not_le, not_lt]
  omega

theorem countP_flatMap (l : List α) (f : α → List β) (p : β → Bool) :
    (l.flatMap f).countP p = (l.map fun a => (f a).countP p).sum := by
  induction l with
  | nil => simp
  | cons a l ih => simp [List.flatMap_cons, List.countP_append, ih]

theorem countP_add_countP_not (l : List α) (p : α → Bool) :
    l.countP p + l.countP (fun a => !(p a)) = l.length := by
  induction l with
  | nil => simp
  | cons a l ih =>
    cases h : p a <;> simp [List.countP_cons, h, ← ih] <;> omega

theorem sum_map_ite (l : List γ) (p : γ → Bool) (a b : ℕ) :
    (l.map fun k => if p k then a else b).sum =
      l.countP p * a + (l.length - l.countP p) * b := by
  induction l with
  | nil => simp
  | cons x l ih =>
    have hle : l.countP p ≤ l.length := List.countP_le_length p
    cases h : p x with
    | true =>
      simp only [List.map_cons, List.sum_cons, List.countP_cons, h,
        List.length_cons, ih, if_true]
      have e : l.length + 1 - (l.countP p + 1) = l.length - l.countP p := by omega
      simp only [e]
      have e2 : (l.countP p + 1) * a = l.countP p * a + a := by ring
      rw [e2]
      ring
    | false =>
      simp only [List.map_cons, List.sum_cons, List.countP_cons, h,
        List.length_cons, ih, Bool.false_eq_true, if_false, add_zero]
      have e : l.length + 1 - l.countP p = (l.length - l.countP p) + 1 := by
        omega
      rw [e]
      have e2 : ((l.length - l.countP p) + 1) * b = (l.length - l.countP p) * b + b := by
        ring
      rw [e2]
      ring

theorem countP_range_window (a b N : ℕ) :
    (List.range N).countP (fun k => decide (a ≤ k) && decide (k ≤ b)) =
      min (b + 1) N - min a N := by
  induction N with
  | zero => simp
  | succ n ih =>
    rw [List.range_succ, List.countP_append, ih]
    by_cases h1 : a ≤ n <;> by_cases h2 : n ≤ b <;>
      simp [List.countP_cons, h1, h2] <;> omega

theorem countP_range_inn {N : ℕ} (hN3 : 3 ≤ N) :
    (List.range N).countP (inn N) = N - 2 := by
  have h : (List.range N).countP (inn N) = min (N - 2 + 1) N - min 1 N :=
    countP_range_window 1 (N - 2) N
  rw [h]
  omega

theorem cube_z_count (col : ℕ → ℕ → ℕ → ColorQ) {N x y : ℕ} (hN3 : 3 ≤ N)
    (hN16 : N ≤ 16) (hx : x < N) (hy : y < N) :
    ((List.range N).map fun (z : ℕ) =>
        ({ position := ⟨(x : ℚ), (y : ℚ), (z : ℚ)⟩,
           color := col x y z } : Voxel)).countP
      (keepVoxel (positionSetOf (cubeVoxels col N))) =
    N - (if inn N x && inn N y then N - 2 else 0) := by
  rw [List.countP_map]
  have hcongr : (List.range N).countP
        ((keepVoxel (positionSetOf (cubeVoxels col N))) ∘ fun (z : ℕ) =>
          ({ position := ⟨(x : ℚ), (y : ℚ), (z : ℚ)⟩,
             color := col x y z } : Voxel)) =
      (List.range N).countP (fun z => !(inn N x && inn N y && inn N z)) :=
    List.countP_congr fun z hz =>
      keep_cube_iff col hN3 hN16 hx hy (List.mem_range.mp hz)
  rw [hcongr]
  cases hbx : inn N x with
  | false => simp [Bool.false_and, List.countP_true]
  | true =>
    cases hby : inn N y with
    | false => simp [Bool.true_and, Bool.false_and, List.countP_true]
    | true =>
      simp only [Bool.true_and, if_true]
      have h1 := countP_add_countP_not (List.range N) (inn N)
      have h2 := countP_range_inn hN3
      rw [List.length_range] at h1
      omega

theorem cube_xy_count (col : ℕ → ℕ → ℕ → ColorQ) {N x : ℕ} (hN3 : 3 ≤ N)
    (hN16 : N ≤ 16) (hx : x < N) :
    (((List.range N).flatMap fun (y : ℕ) =>
        (List.range N).map fun (z : ℕ) =>
          ({ position := ⟨(x : ℚ), (y : ℚ), (z : ℚ)⟩,
             color := col x y z } : Voxel))).countP
      (keepVoxel (positionSetOf (cubeVoxels col N))) =
    if inn N x then 4 * N - 4 else N * N := by
  rw [countP_flatMap]
  rw [List.map_congr_left (fun y hy =>
    cube_z_count col hN3 hN16 hx (List.mem_range.mp hy))]
  rw [show (fun (y : ℕ) => N - if inn N x && inn N y then N - 2 else 0) =
      fun (y : ℕ) => if inn N x && inn N y then N - (N - 2) else N from
    funext fun y => by cases h : (inn N x && inn N y) <;> simp [h]]
  have hcnt : (List.range N).countP (fun y => inn N x && inn N y) =
      if inn N x then N - 2 else 0 := by
    cases hbx : inn N x with
    | false => simp [Bool.false_and]
    | true =>
      simp only [Bool.true_and, if_true]
      exact countP_range_inn hN3
  rw [sum_map_ite, List.length_range, hcnt]
  cases hbx : inn N x with
  | false => simp
  | true =>
    simp only [if_true]
    have e1 : N - (N - 2) = 2 := by omega
    rw [e1]
    omega

/-- C7: filtering a fully solid cube of side `2 < N ≤ CHUNK_SIZE` keeps
exactly the surface shell of `N ^ 3 - (N - 2) ^ 3` voxels, and a single
isolated voxel is always kept. -/
theorem cube_surface_count :
    (∀ (col : ℕ → ℕ → ℕ → ColorQ) (N : ℕ), 2 < N → (N : ℤ) ≤ CHUNK_SIZE →
      (filterOccludedVoxels (cubeVoxels col N)).length = N ^ 3 - (N - 2) ^ 3) ∧
    (∀ v : Voxel, filterOccludedVoxels [v] = [v]) := by
  constructor
  · intro col N hN2 hNC
    have hN3 : 3 ≤ N := hN2
    have hN16 : N ≤ 16 := by
      have h : CHUNK_SIZE = 16 := rfl
      omega
    rw [filterOccludedVoxels, ← List.countP_eq_length_filter]
    show List.countP (keepVoxel (positionSetOf (cubeVoxels col N)))
        ((List.range N).flatMap fun (x : ℕ) =>
          (List.range N).flatMap fun (y : ℕ) =>
            (List.range N).map fun (z : ℕ) =>
              ({ position := ⟨(x : ℚ), (y : ℚ), (z : ℚ)⟩,
                 color := col x y z } : Voxel)) = N ^ 3 - (N - 2) ^ 3
    rw [countP_flatMap]
    rw [List.map_congr_left (fun x hx =>
      cube_xy_count col hN3 hN16 (List.mem_range.mp hx))]
    rw [sum_map_ite, List.length_range]
    have hcnt : (List.range N).countP (fun x => inn N x) = N - 2 :=
      countP_range_inn hN3
    rw [hcnt]
    have e1 : N - (N - 2) = 2 := by omega
    rw [e1]
    obtain ⟨M, rfl⟩ : ∃ M, N = M + 3 := ⟨N - 3, by omega⟩
    have e2 : M + 3 - 2 = M + 1 := by omega
    have e3 : 4 * (M + 3) - 4 = 4 * M + 8 := by omega
    rw [e2, e3]
    have e4 : (M + 3) ^ 3 - (M + 1) ^ 3 = 6 * M ^ 2 + 24 * M + 26 :=
      Nat.sub_eq_of_eq_add (by ring)
    rw [e4]
    ring
  · intro v
    have hkeep : keepVoxel (positionSetOf [v]) v = true := by
      rw [keepVoxel_iff]
      refine ⟨_, List.mem_cons_self _ _, Or.inr ?_⟩
      intro hmem
      rw [mem_positionSetOf] at hmem
      obtain ⟨w, hw, hweq⟩ := hmem
      simp only [List.mem_singleton] at hw
      subst hw
      have hx := congrArg LocalPos.x hweq
      simp only [LocalPos.new] at hx
      omega
    simp [filterOccludedVoxels, List.filter_cons, hkeep]

/-- Witness for C7 at `N = 3` and a single concrete voxel. -/
theorem cube_surface_count_witness :
    (filterOccludedVoxels (cubeVoxels (fun _ _ _ => cstColor) 3)).length =
      3 ^ 3 - (3 - 2) ^ 3 ∧
    filterOccludedVoxels [originVoxel] = [originVoxel] :=
  ⟨cube_surface_count.1 (fun _ _ _ => cstColor) 3 (by decide) (by decide),
   cube_surface_count.2 originVoxel⟩

end WorldVox
